import Mathlib

/-!
Verification of the audio ingestion / segmentation / translation-coordination
core of the gogospelnow repository, shallowly embedded in Lean 4.

The embedding follows `src/main.py` (CircularAudioBuffer, check_audio_queue,
schedule_translation_task) and `src/translator_core.py` (is_complete_sentence,
translate).  Sample values are abstract (`α`); durations (float seconds in the
code, only ever added and compared) are integers in milliseconds, so the
source's `0.05` second idle tick is 50 and the default thresholds 0.6 / 1.0 /
10.0 / 0.5 seconds are 600 / 1000 / 10000 / 500.
-/

namespace GoGospelNow

/-- The last `n` elements of a list, in order. -/
def lastN (l : List α) (n : Nat) : List α := l.drop (l.length - n)

/-- Overwrite the slice of `l` starting at `start` with `xs`
(numpy `l[start:start+len(xs)] = xs`, assuming it fits). -/
def writeSlice (l : List α) (start : Nat) (xs : List α) : List α :=
  l.take start ++ xs ++ l.drop (start + xs.length)

/-- Embedding of `CircularAudioBuffer` from `src/main.py` (lines 845-916).
The numpy backing array becomes a list whose length is the capacity
(`max_size`); `write_pos` and `data_size` are as in the source. -/
structure CircularAudioBuffer (α : Type) where
  max_size : Nat
  buffer : List α
  write_pos : Nat
  data_size : Nat
deriving Repr, DecidableEq

namespace CircularAudioBuffer

/-- Fresh buffer of capacity `cap`, zero-filled with `z`
(`__init__`, lines 847-851; capacity is `TARGET_RATE * max_duration_seconds`,
modelled directly as a sample count). -/
def init (z : α) (cap : Nat) : CircularAudioBuffer α :=
  { max_size := cap, buffer := List.replicate cap z, write_pos := 0, data_size := 0 }

/-- `add_audio` (lines 853-875): chunks at least as large as the buffer keep
only their tail with the cursor reset; otherwise the chunk is written at the
cursor, wrapping once if needed. -/
def add_audio (b : CircularAudioBuffer α) (chunk : List α) : CircularAudioBuffer α :=
  let k := chunk.length
  if b.max_size ≤ k then
    { b with buffer := chunk.drop (k - b.max_size), write_pos := 0, data_size := b.max_size }
  else if b.write_pos + k ≤ b.max_size then
    { b with buffer := writeSlice b.buffer b.write_pos chunk,
             write_pos := b.write_pos + k,
             data_size := min (b.data_size + k) b.max_size }
  else
    let fp := b.max_size - b.write_pos
    { b with buffer := writeSlice (writeSlice b.buffer b.write_pos (chunk.take fp)) 0 (chunk.drop fp),
             write_pos := k - fp,
             data_size := min (b.data_size + k) b.max_size }

/-- `get_audio` (lines 877-906).  `duration = none` reads everything
(`duration_seconds=None`); `some n` asks for `n` samples (the source converts
seconds to a sample count with `int(TARGET_RATE * duration_seconds)`; we work
directly in samples). -/
def get_audio (b : CircularAudioBuffer α) (duration : Option Nat) : List α :=
  let samples_needed :=
    match duration with
    | none => b.data_size
    | some n => min n b.data_size
  if samples_needed = 0 then []
  else if samples_needed ≤ b.data_size ∧ samples_needed ≤ b.write_pos then
    (b.buffer.drop (b.write_pos - samples_needed)).take samples_needed
  else if b.data_size < b.max_size then
    b.buffer.take samples_needed
  else if b.write_pos = 0 then
    b.buffer.drop (b.max_size - samples_needed)
  else
    let fp := min samples_needed (b.max_size - b.write_pos)
    (b.buffer.drop b.write_pos).take fp ++ b.buffer.take (samples_needed - fp)

/-- `clear` (lines 908-911). -/
def clear (b : CircularAudioBuffer α) : CircularAudioBuffer α :=
  { b with write_pos := 0, data_size := 0 }

/-- `get_overlap` (lines 913-916), with the overlap given as a sample count
(`int(TARGET_RATE * overlap_seconds)` in the source). -/
def get_overlap (b : CircularAudioBuffer α) (overlap_samples : Nat) : List α :=
  if overlap_samples ≤ b.data_size then b.get_audio (some overlap_samples) else []

/-- The chronological content of the buffer: the valid samples, oldest first.
When the buffer is not yet full the data sits at the front; when full, the
oldest sample is at the cursor (mod capacity). -/
def content (b : CircularAudioBuffer α) : List α :=
  if b.data_size < b.max_size then b.buffer.take b.data_size
  else b.buffer.drop (b.write_pos % b.max_size) ++ b.buffer.take (b.write_pos % b.max_size)

/-- Structural invariant of reachable buffer states. -/
def Inv (b : CircularAudioBuffer α) : Prop :=
  b.buffer.length = b.max_size ∧ b.write_pos ≤ b.max_size ∧ b.data_size ≤ b.max_size ∧
    (b.data_size < b.max_size → b.write_pos = b.data_size)

instance (b : CircularAudioBuffer α) : Decidable b.Inv := by
  unfold Inv; infer_instance

/-- Fold a list of chunks into the buffer. -/
def appendAll (b : CircularAudioBuffer α) (chunks : List (List α)) : CircularAudioBuffer α :=
  chunks.foldl add_audio b

end CircularAudioBuffer

/-- The characters Python `str.strip()` / `str.split()` treat as whitespace
(ASCII range). -/
def isSpaceChar (c : Char) : Bool :=
  c == ' ' || c == '\t' || c == '\n' || c == '\r' || c == '\x0b' || c == '\x0c'

/-- Python `s.strip()`: remove leading and trailing whitespace. -/
def pyStrip (s : String) : String :=
  String.mk (((s.data.dropWhile isSpaceChar).reverse.dropWhile isSpaceChar).reverse)

/-- Helper for `pyWords`: split a character list on whitespace runs,
accumulating the current word in reverse. -/
def pyWordsAux : List Char → List Char → List String
  | [], cur => if cur.isEmpty then [] else [String.mk cur.reverse]
  | c :: cs, cur =>
    if isSpaceChar c then
      if cur.isEmpty then pyWordsAux cs [] else String.mk cur.reverse :: pyWordsAux cs []
    else pyWordsAux cs (c :: cur)

/-- Python `s.split()` with no separator: the whitespace-separated words. -/
def pyWords (s : String) : List String := pyWordsAux s.data []

/-- Number of whitespace-separated words (Python `len(text.split())`). -/
def wordCount (s : String) : Nat := (pyWords s).length

/-- Whether the last character of `s` is sentence-final punctuation
(the regex `[.!?]$` applied to the stripped text in the source). -/
def endsSentencePunct (s : String) : Bool :=
  match s.data.getLast? with
  | some c => c == '.' || c == '!' || c == '?'
  | none => false

/-- Embedding of `is_complete_sentence` from `src/translator_core.py`
(lines 459-467). -/
def is_complete_sentence (text : String) : Bool :=
  if text = "" then false
  else if endsSentencePunct (pyStrip text) then true
  else if 5 ≤ wordCount text then true
  else false

/-- Segmentation thresholds of `check_audio_queue` (lines 1576-1582), with the
duration thresholds that the source converts to sample counts
(`MIN_SPEECH_SIZE`, `MAX_SPEECH_SIZE`, `OVERLAP_SIZE`) kept as sample counts. -/
structure SegParams where
  minSilence : Int
  minSpeechSize : Nat
  maxSpeechSize : Nat
  overlapSize : Nat
deriving Repr, DecidableEq

/-- The segmentation state of `check_audio_queue`: the module-level variables
`audio_buffer`, `silence_counter`, `is_speaking`, `last_transcription`
(lines 1543-1547). -/
structure SegState (α : Type) where
  buffer : CircularAudioBuffer α
  silence_counter : Int
  is_speaking : Bool
  last_transcription : String
deriving Repr, DecidableEq

/-- The overlap-retention idiom shared by the finalize paths
(`get_overlap`, `clear`, then `add_audio` if the overlap is non-empty;
lines 1630-1633, 1756-1759, 1766-1769, 1804-1807). -/
def overlapRetain (overlapSize : Nat) (b : CircularAudioBuffer α) : CircularAudioBuffer α :=
  let ov := b.get_overlap overlapSize
  let b1 := b.clear
  if 0 < ov.length then b1.add_audio ov else b1

/-- Embedding of the chunk-processing part of `check_audio_queue`
(lines 1719-1816).  `isSp` is the outcome of the external `is_speech` energy
test on the combined chunk, `dur` its duration, and `t` the outcome of the
external transcription call (consulted only when a finalize path triggers;
`none` covers both recognizer failure and detected near-silence).  Returns the
new state and the dispatched transcript, if any (`some s` means
`schedule_translation_task` was called with `s`). -/
def processChunk (P : SegParams) (st : SegState α) (isSp : Bool) (chunk : List α)
    (dur : Int) (t : Option String) : SegState α × Option String :=
  if isSp then
    let st1 : SegState α :=
      { st with is_speaking := true, silence_counter := 0,
                buffer := st.buffer.add_audio chunk }
    if P.maxSpeechSize ≤ st1.buffer.data_size then
      match t with
      | some s =>
        if s ≠ "" ∧ s ≠ st1.last_transcription then
          ({ st1 with buffer := overlapRetain P.overlapSize st1.buffer,
                      last_transcription := s }, some s)
        else
          ({ st1 with buffer := overlapRetain P.overlapSize st1.buffer }, none)
      | none => ({ st1 with buffer := overlapRetain P.overlapSize st1.buffer }, none)
    else (st1, none)
  else if st.is_speaking then
    let st1 : SegState α :=
      { st with silence_counter := st.silence_counter + dur,
                buffer := st.buffer.add_audio chunk }
    if P.minSilence ≤ st1.silence_counter ∧ P.minSpeechSize ≤ st1.buffer.data_size then
      match t with
      | some s =>
        if s ≠ "" ∧ is_complete_sentence s = true ∧ s ≠ st1.last_transcription then
          ({ st1 with buffer := overlapRetain P.overlapSize st1.buffer,
                      is_speaking := false, silence_counter := 0 }, some s)
        else (st1, none)
      | none => (st1, none)
    else (st1, none)
  else
    ({ st with silence_counter := st.silence_counter + dur }, none)

/-- Embedding of the empty-queue part of `check_audio_queue`
(lines 1599-1651): the silence-timeout finalize path and the idle
silence-counter bookkeeping. -/
def processIdle (P : SegParams) (st : SegState α) (t : Option String) :
    SegState α × Option String :=
  if st.is_speaking = false ∧ P.minSpeechSize < st.buffer.data_size ∧
      P.minSilence < st.silence_counter then
    match t with
    | some s =>
      if s ≠ "" ∧ s ≠ st.last_transcription then
        let buf' := if P.maxSpeechSize < st.buffer.data_size
          then overlapRetain P.overlapSize st.buffer else st.buffer
        ({ st with buffer := buf', is_speaking := false, silence_counter := 0,
                   last_transcription := s }, some s)
      else if P.maxSpeechSize < st.buffer.data_size then
        ({ st with buffer := st.buffer.clear, is_speaking := false,
                   silence_counter := 0 }, none)
      else (st, none)
    | none =>
      if P.maxSpeechSize < st.buffer.data_size then
        ({ st with buffer := st.buffer.clear, is_speaking := false,
                   silence_counter := 0 }, none)
      else (st, none)
  else if st.is_speaking = false then
    ({ st with silence_counter := st.silence_counter + 50 }, none)
  else (st, none)

/-- A `(transcription_id, transcription, translation)` tuple on
`translation_results_queue` (line 1108). -/
structure QueueResult where
  tid : Nat
  transcription : String
  translation : Option String
deriving Repr, DecidableEq

/-- Python `str.lower()` (ASCII case folding, as applied to voice names). -/
def pyLower (s : String) : String :=
  String.mk (s.data.map Char.toLower)

/-- Python truthiness of the optional translation (`if translation:`). -/
def truthy : Option String → Bool
  | none => false
  | some s => s ≠ ""

/-- The drain loop of `check_audio_queue` (lines 1556-1568): walk the drained
results in queue order, remembering the most recently seen one whose
translation is truthy. -/
def drain_latest_result (results : List QueueResult) : Option QueueResult :=
  results.foldl (fun acc r => if truthy r.translation then some r else acc) none

/-- The result-surfacing phase of one `check_audio_queue` poll
(lines 1555-1573): drain, then display the remembered result only if its id is
strictly greater than `last_displayed_transcription_id`.  Returns the new
`last_displayed_transcription_id` and the displayed
`(transcription, translation)`, if any. -/
def check_results_poll (last_displayed : Nat) (results : List QueueResult) :
    Nat × Option (String × Option String) :=
  match drain_latest_result results with
  | some r =>
    if last_displayed < r.tid then (r.tid, some (r.transcription, r.translation))
    else (last_displayed, none)
  | none => (last_displayed, none)

/-- A task put on `tts_queue` by `_on_complete` (lines 1097-1103); the settings
snapshot is opaque. -/
structure TTSJob (σ : Type) where
  text : String
  voice : String
  settings : σ
  output_device : Option Nat
deriving Repr, DecidableEq

/-- Embedding of the `_on_complete` callback of `schedule_translation_task`
(lines 1088-1110).  `outcome` is the worker future's result: an exception, or
the value returned by `core.translate` (itself an optional string).  Returns
the TTS jobs enqueued (none or one) and the tuple pushed to
`translation_results_queue`. -/
def on_complete (tid : Nat) (transcription : String) (voice : String)
    (settings : σ) (device : Option Nat) (outcome : Except String (Option String)) :
    List (TTSJob σ) × QueueResult :=
  let translation : Option String :=
    match outcome with
    | Except.error _ => none
    | Except.ok v => v
  let jobs : List (TTSJob σ) :=
    match translation with
    | some s =>
      if s ≠ "" ∧ voice ≠ "" ∧ pyLower voice ≠ "none" then
        [{ text := s, voice := voice, settings := settings, output_device := device }]
      else []
    | none => []
  (jobs, { tid := tid, transcription := transcription, translation := translation })

/-- One completion event: the identity of a submitted task together with its
worker outcome. -/
structure Completion (σ : Type) where
  tid : Nat
  transcription : String
  voice : String
  settings : σ
  device : Option Nat
  outcome : Except String (Option String)

/-- Run the completion callback for each finished task in order, collecting the
enqueued TTS jobs and the results pushed to the queue. -/
def processCompletions (cs : List (Completion σ)) : List (TTSJob σ) × List QueueResult :=
  cs.foldl
    (fun acc c =>
      let r := on_complete c.tid c.transcription c.voice c.settings c.device c.outcome
      (acc.1 ++ r.1, acc.2 ++ [r.2]))
    ([], [])

/-- What the translation server interaction can yield, as seen by the
exception handlers of `translate` (lines 339-374): one of the caught error
classes, or a response whose extracted `"response"` field is `text`. -/
inductive TranslateOutcome where
  | timeout
  | connectionError
  | requestError
  | otherError
  | response (text : String)
deriving Repr, DecidableEq

/-- Python `s.startswith('"')`. -/
def startsWithQuote (t : String) : Bool :=
  match t.data with
  | c :: _ => c == '\"'
  | [] => false

/-- Python `s.endswith('"')`. -/
def endsWithQuote (t : String) : Bool :=
  match t.data.getLast? with
  | some c => c == '\"'
  | none => false

/-- The quote-stripping step of `translate` (lines 355-356): remove one pair of
surrounding double quotes (Python `t[1:-1]`) when the text both starts and ends
with one. -/
def stripSymmetricQuotes (t : String) : String :=
  if startsWithQuote t ∧ endsWithQuote t then String.mk (t.data.drop 1).dropLast else t

/-- Python `s.split("\n")[0]`: everything before the first newline. -/
def firstLine (s : String) : String :=
  String.mk (s.data.takeWhile (fun c => !(c == '\n')))

/-- The text-extraction pipeline of `translate` (lines 353-356): strip the
response text, keep its first line, strip one pair of surrounding quotes. -/
def extractTranslation (raw : String) : String :=
  stripSymmetricQuotes (firstLine (pyStrip raw))

/-- Embedding of `translate` from `src/translator_core.py` (lines 309-374),
restricted to its result semantics: every caught error returns `None`
(lines 363-374); an extracted text that processes to empty returns `None`
(lines 357-359); otherwise the processed text is returned (line 362). -/
def translate (o : TranslateOutcome) : Option String :=
  match o with
  | TranslateOutcome.response raw =>
    let t := extractTranslation raw
    if t = "" then none else some t
  | _ => none

/-! ## Helper lemmas -/

theorem writeSlice_length (l : List α) (s : Nat) (xs : List α)
    (h : s + xs.length ≤ l.length) : (writeSlice l s xs).length = l.length := by
  simp [writeSlice]
  omega

theorem lastN_length (l : List α) (n : Nat) : (lastN l n).length = min n l.length := by
  simp [lastN]
  omega

theorem lastN_of_length_le (l : List α) (n : Nat) (h : l.length ≤ n) : lastN l n = l := by
  simp [lastN, Nat.sub_eq_zero_of_le h]

theorem lastN_zero (l : List α) : lastN l 0 = [] := by
  simp [lastN]

theorem lastN_lastN_append (x y : List α) (n : Nat) :
    lastN (lastN x n ++ y) n = lastN (x ++ y) n := by
  simp only [lastN, List.drop_append_eq_append_drop, List.length_append, List.length_drop,
    List.drop_drop]
  have h1 : x.length - n + (x.length - (x.length - n) + y.length - n)
      = x.length + y.length - n := by omega
  have h2 : x.length - (x.length - n) + y.length - n - (x.length - (x.length - n))
      = x.length + y.length - n - x.length := by omega
  rw [h1, h2]

namespace CircularAudioBuffer

theorem max_size_add_audio (b : CircularAudioBuffer α) (c : List α) :
    (b.add_audio c).max_size = b.max_size := by
  simp only [add_audio]
  split_ifs <;> rfl

theorem max_size_clear (b : CircularAudioBuffer α) : b.clear.max_size = b.max_size := rfl

theorem inv_init (z : α) (cap : Nat) : (init z cap).Inv := by
  refine ⟨by simp [init], by simp [init], by simp [init], ?_⟩
  intro _
  rfl

theorem inv_add_audio (b : CircularAudioBuffer α) (c : List α) (h : b.Inv) :
    (b.add_audio c).Inv := by
  obtain ⟨hlen, hwp, hds, hnf⟩ := h
  simp only [add_audio, Inv]
  split_ifs with hk hw
  · exact ⟨by simp; omega, Nat.zero_le _, Nat.le_refl _, fun h => absurd h (lt_irrefl _)⟩
  · refine ⟨(writeSlice_length _ _ _ (by omega)).trans hlen, by simpa using hw, by simp, ?_⟩
    intro hlt
    simp only at hlt ⊢
    have hD : b.data_size < b.max_size := by omega
    have := hnf hD
    omega
  · push_neg at hk hw
    have hfp : b.write_pos + (c.take (b.max_size - b.write_pos)).length ≤ b.buffer.length := by
      simp [hlen]
      omega
    have hlen1 : (writeSlice b.buffer b.write_pos (c.take (b.max_size - b.write_pos))).length
        = b.max_size := by
      rw [writeSlice_length _ _ _ hfp, hlen]
    refine ⟨?_, ?_, by exact min_le_right _ _, ?_⟩
    · exact (writeSlice_length _ _ _ (by simp [hlen1]; omega)).trans hlen1
    · simp only
      omega
    · intro hlt
      simp only at hlt ⊢
      exfalso
      have hD : b.data_size < b.max_size := by omega
      have := hnf hD
      omega

theorem inv_clear (b : CircularAudioBuffer α) (h : b.Inv) : b.clear.Inv := by
  obtain ⟨hlen, hwp, hds, hnf⟩ := h
  exact ⟨hlen, Nat.zero_le _, Nat.zero_le _, fun _ => rfl⟩

theorem content_length (b : CircularAudioBuffer α) (h : b.Inv) :
    b.content.length = b.data_size := by
  obtain ⟨hlen, hwp, hds, hnf⟩ := h
  unfold content
  by_cases hd : b.data_size < b.max_size
  · simp [hd, hlen]
    omega
  · have hdm : b.data_size = b.max_size := by omega
    simp [hd, hlen, hdm]
    have : b.write_pos % b.max_size ≤ b.max_size := by
      rcases Nat.eq_zero_or_pos b.max_size with h0 | h0
      · simp [h0]
        omega
      · exact le_of_lt (Nat.mod_lt _ h0)
    omega

theorem content_add_audio (b : CircularAudioBuffer α) (c : List α) (h : b.Inv) :
    (b.add_audio c).content = lastN (b.content ++ c) b.max_size := by
  obtain ⟨hlen, hwp, hds, hnf⟩ := h
  have hclen := content_length b ⟨hlen, hwp, hds, hnf⟩
  have hrhs : lastN (b.content ++ c) b.max_size
      = b.content.drop (b.data_size + c.length - b.max_size)
        ++ c.drop (b.data_size + c.length - b.max_size - b.data_size) := by
    rw [lastN, List.length_append, hclen, List.drop_append_eq_append_drop, hclen]
  simp only [add_audio]
  split_ifs with hk hw
  · -- chunk at least as large as the buffer: only its tail is kept
    have hL : (CircularAudioBuffer.mk b.max_size (c.drop (c.length - b.max_size))
        0 b.max_size).content = c.drop (c.length - b.max_size) := by
      simp [content]
    rw [hL, hrhs]
    have h1 : b.content.drop (b.data_size + c.length - b.max_size) = [] :=
      List.drop_eq_nil_of_le (by rw [hclen]; omega)
    have h2 : b.data_size + c.length - b.max_size - b.data_size
        = c.length - b.max_size := by omega
    rw [h1, h2, List.nil_append]
  · -- no wraparound write
    by_cases hd : b.data_size < b.max_size
    · have hW := hnf hd
      have hcb : b.content = b.buffer.take b.data_size := by
        simp only [content, if_pos hd]
      by_cases hDk : b.data_size + c.length < b.max_size
      · -- stays not-full
        have hmin : (b.data_size + c.length) ⊓ b.max_size = b.data_size + c.length := by
          omega
        rw [hrhs, hcb]
        have h0 : b.data_size + c.length - b.max_size = 0 := by omega
        rw [h0]
        simp only [Nat.zero_sub, List.drop_zero]
        simp only [content, hmin, writeSlice, hDk, if_true]
        have hlen2 : (b.buffer.take b.write_pos ++ c).length
            = b.data_size + c.length := by
          simp [hlen]; omega
        rw [List.take_left' hlen2, hW]
      · -- fills exactly to the boundary
        have hMeq : b.write_pos + c.length = b.max_size := by omega
        have hmin : (b.data_size + c.length) ⊓ b.max_size = b.max_size := by omega
        rw [hrhs, hcb]
        have h0 : b.data_size + c.length - b.max_size = 0 := by omega
        rw [h0]
        simp only [Nat.zero_sub, List.drop_zero]
        simp only [content, hmin, writeSlice, lt_irrefl, if_false]
        rw [hMeq, Nat.mod_self]
        simp only [List.drop_zero, List.take_zero, List.append_nil]
        rw [List.drop_eq_nil_of_le (le_of_eq hlen), List.append_nil, hW]
    · -- buffer already full
      have hD : b.data_size = b.max_size := by omega
      have hcb : b.content
          = b.buffer.drop (b.write_pos % b.max_size)
            ++ b.buffer.take (b.write_pos % b.max_size) := by
        simp only [content, if_neg hd]
      have hmin : (b.data_size + c.length) ⊓ b.max_size = b.max_size := by omega
      by_cases hWM : b.write_pos = b.max_size
      · -- cursor parked exactly at the end: only an empty chunk avoids wrapping
        have hc0 : c = [] := by
          have : c.length = 0 := by omega
          exact List.eq_nil_of_length_eq_zero this
        subst hc0
        rw [hrhs, hcb]
        simp only [List.length_nil, Nat.add_zero, List.drop_nil, List.append_nil]
        have h0 : b.data_size - b.max_size = 0 := by omega
        rw [h0]
        simp only [List.drop_zero]
        have hbuf : writeSlice b.buffer b.write_pos ([] : List α) = b.buffer := by
          simp [writeSlice]
        simp only [hbuf, List.length_nil, Nat.add_zero]
        have hmin2 : b.data_size ⊓ b.max_size = b.max_size := by omega
        simp only [hmin2, content, lt_irrefl, if_false]
      · have hWlt : b.write_pos < b.max_size := by omega
        have hWmod : b.write_pos % b.max_size = b.write_pos := Nat.mod_eq_of_lt hWlt
        by_cases hWk : b.write_pos + c.length < b.max_size
        · -- new cursor still strictly inside
          rw [hrhs, hcb, hWmod]
          have h0 : b.data_size + c.length - b.max_size = c.length := by omega
          rw [h0, (by omega : c.length - b.data_size = 0)]
          simp only [List.drop_zero]
          rw [List.drop_append_eq_append_drop]
          have hdw : (b.buffer.drop b.write_pos).length
              = b.max_size - b.write_pos := by simp [hlen]
          rw [hdw, (by omega : c.length - (b.max_size - b.write_pos) = 0)]
          simp only [List.drop_zero, List.drop_drop]
          simp only [content, hmin, writeSlice, lt_irrefl, if_false]
          rw [Nat.mod_eq_of_lt hWk]
          have hlen2 : (b.buffer.take b.write_pos ++ c).length
              = b.write_pos + c.length := by
            simp [hlen]; omega
          rw [List.drop_left' hlen2, List.take_left' hlen2, List.append_assoc,
            (by omega : b.write_pos + c.length = c.length + b.write_pos)]
        · -- new cursor lands exactly on the end of the array
          have hMeq : b.write_pos + c.length = b.max_size := by omega
          rw [hrhs, hcb, hWmod]
          have h0 : b.data_size + c.length - b.max_size = c.length := by omega
          rw [h0, (by omega : c.length - b.data_size = 0)]
          simp only [List.drop_zero]
          rw [List.drop_append_eq_append_drop]
          have hdw : (b.buffer.drop b.write_pos).length
              = b.max_size - b.write_pos := by simp [hlen]
          rw [hdw, (by omega : c.length - (b.max_size - b.write_pos) = 0)]
          simp only [List.drop_zero]
          rw [List.drop_eq_nil_of_le (by rw [hdw]; omega :
            (b.buffer.drop b.write_pos).length ≤ c.length), List.nil_append]
          simp only [content, hmin, writeSlice, lt_irrefl, if_false]
          rw [hMeq, Nat.mod_self]
          simp only [List.drop_zero, List.take_zero, List.append_nil]
          rw [List.drop_eq_nil_of_le (le_of_eq hlen), List.append_nil]
  · -- wraparound write
    push_neg at hk hw
    have hDk : b.max_size ≤ b.data_size + c.length := by
      by_cases hd : b.data_size < b.max_size
      · have := hnf hd; omega
      · omega
    have hmin : (b.data_size + c.length) ⊓ b.max_size = b.max_size := by omega
    have hfpl : (c.take (b.max_size - b.write_pos)).length
        = b.max_size - b.write_pos := by
      rw [List.length_take]; omega
    have hdl : (c.drop (b.max_size - b.write_pos)).length
        = c.length - (b.max_size - b.write_pos) := by
      rw [List.length_drop]
    have hB1 : writeSlice b.buffer b.write_pos (c.take (b.max_size - b.write_pos))
        = b.buffer.take b.write_pos ++ c.take (b.max_size - b.write_pos) := by
      rw [writeSlice, hfpl, (by omega : b.write_pos + (b.max_size - b.write_pos) = b.max_size)]
      rw [List.drop_eq_nil_of_le (by omega : b.buffer.length ≤ b.max_size), List.append_nil]
    set r := c.length - (b.max_size - b.write_pos) with hr
    have hrW : r ≤ b.write_pos := by omega
    have hrM : r < b.max_size := by omega
    have htWl : (b.buffer.take b.write_pos).length = b.write_pos := by
      rw [List.length_take]; omega
    have hB2 : writeSlice (b.buffer.take b.write_pos ++ c.take (b.max_size - b.write_pos)) 0
          (c.drop (b.max_size - b.write_pos))
        = c.drop (b.max_size - b.write_pos)
          ++ ((b.buffer.take b.write_pos).drop r
              ++ c.take (b.max_size - b.write_pos)) := by
      rw [writeSlice, List.take_zero, List.nil_append, Nat.zero_add, hdl,
        List.drop_append_eq_append_drop, htWl, (by omega : r - b.write_pos = 0),
        List.drop_zero]
    have hmod : r % b.max_size = r := Nat.mod_eq_of_lt hrM
    rw [hrhs, (by omega : b.data_size + c.length - b.max_size - b.data_size = 0)]
    simp only [List.drop_zero]
    by_cases hd : b.data_size < b.max_size
    · have hW := hnf hd
      have hcb : b.content = b.buffer.take b.data_size := by
        simp only [content, if_pos hd]
      rw [hcb]
      simp only [content, hmin, lt_irrefl, if_false, hB1, hB2, hmod]
      rw [List.drop_left' hdl, List.take_left' hdl, List.append_assoc,
        List.take_append_drop]
      rw [(by omega : b.data_size + c.length - b.max_size = r), hW]
    · have hD : b.data_size = b.max_size := by omega
      have hcb : b.content
          = b.buffer.drop (b.write_pos % b.max_size)
            ++ b.buffer.take (b.write_pos % b.max_size) := by
        simp only [content, if_neg hd]
      rw [hcb]
      simp only [content, hmin, lt_irrefl, if_false, hB1, hB2, hmod]
      rw [List.drop_left' hdl, List.take_left' hdl, List.append_assoc,
        List.take_append_drop]
      by_cases hWM : b.write_pos = b.max_size
      · rw [hWM, Nat.mod_self]
        simp only [List.drop_zero, List.take_zero, List.append_nil]
        rw [List.take_of_length_le (le_of_eq hlen)]
        rw [(by omega : b.data_size + c.length - b.max_size = r)]
      · have hWlt : b.write_pos < b.max_size := by omega
        rw [Nat.mod_eq_of_lt hWlt, List.drop_append_eq_append_drop]
        have hdw : (b.buffer.drop b.write_pos).length
            = b.max_size - b.write_pos := by simp [hlen]
        rw [List.drop_eq_nil_of_le (by rw [hdw]; omega :
          (b.buffer.drop b.write_pos).length ≤ b.data_size + c.length - b.max_size),
          List.nil_append, hdw,
          (by omega : b.data_size + c.length - b.max_size - (b.max_size - b.write_pos) = r)]


theorem inv_appendAll (b : CircularAudioBuffer α) (chunks : List (List α)) (h : b.Inv) :
    (appendAll b chunks).Inv := by
  induction chunks generalizing b with
  | nil => exact h
  | cons c cs ih => exact ih (b.add_audio c) (inv_add_audio b c h)

theorem max_size_appendAll (b : CircularAudioBuffer α) (chunks : List (List α)) :
    (appendAll b chunks).max_size = b.max_size := by
  induction chunks generalizing b with
  | nil => rfl
  | cons c cs ih => rw [appendAll, List.foldl_cons, ← appendAll, ih, max_size_add_audio]

theorem content_appendAll (b : CircularAudioBuffer α) (chunks : List (List α)) (h : b.Inv) :
    (appendAll b chunks).content = lastN (b.content ++ chunks.flatten) b.max_size := by
  induction chunks generalizing b with
  | nil =>
    rw [appendAll, List.foldl_nil, List.flatten_nil, List.append_nil]
    exact (lastN_of_length_le _ _ (by rw [content_length b h]; exact h.2.2.1)).symm
  | cons c cs ih =>
    rw [appendAll, List.foldl_cons, ← appendAll, ih (b.add_audio c) (inv_add_audio b c h),
      content_add_audio b c h, max_size_add_audio, lastN_lastN_append, List.flatten_cons,
      List.append_assoc]

theorem content_init (z : α) (cap : Nat) : (init z cap).content = [] := by
  cases cap <;> simp [init, content]

theorem content_clear (b : CircularAudioBuffer α) (h : b.Inv) : b.clear.content = [] := by
  by_cases hM : 0 < b.max_size
  · simp [clear, content, hM]
  · have hnil : b.buffer = [] := List.eq_nil_of_length_eq_zero (by rw [h.1]; omega)
    simp [clear, content, hM, hnil]

theorem get_audio_count (b : CircularAudioBuffer α) :
    b.get_audio (some b.data_size) = b.get_audio none := by
  simp only [get_audio, Nat.min_self]

theorem get_audio_none_eq_content (b : CircularAudioBuffer α) (h : b.Inv) :
    b.get_audio none = b.content := by
  obtain ⟨hlen, hwp, hds, hnf⟩ := h
  have hclen := content_length b ⟨hlen, hwp, hds, hnf⟩
  simp only [get_audio]
  split_ifs with h1 h2 h3 h4
  · exact (List.eq_nil_of_length_eq_zero (by rw [hclen, h1])).symm
  · by_cases hd : b.data_size < b.max_size
    · have hW := hnf hd
      rw [content, if_pos hd, hW, Nat.sub_self, List.drop_zero]
    · have hD : b.data_size = b.max_size := by omega
      have hWM : b.write_pos = b.max_size := by omega
      rw [(by omega : b.write_pos - b.data_size = 0), List.drop_zero,
        List.take_of_length_le (by omega), content, if_neg hd, hWM, Nat.mod_self,
        List.drop_zero, List.take_zero, List.append_nil]
  · exfalso
    exact h2 ⟨le_refl _, by have := hnf h3; omega⟩
  · have hD : b.data_size = b.max_size := by
      by_cases hd : b.data_size < b.max_size
      · exact absurd ⟨le_refl _, by have := hnf hd; omega⟩ h2
      · omega
    have hM : 0 < b.max_size := by omega
    rw [content, if_neg (by omega), h4, Nat.zero_mod, List.drop_zero, List.take_zero,
      List.append_nil, hD, Nat.sub_self, List.drop_zero]
  · have hD : b.data_size = b.max_size := by
      by_cases hd : b.data_size < b.max_size
      · exact absurd ⟨le_refl _, by have := hnf hd; omega⟩ h2
      · omega
    have hWD : b.write_pos < b.data_size := by
      rcases Nat.lt_or_ge b.write_pos b.data_size with h | h
      · exact h
      · exact absurd ⟨le_refl _, h⟩ h2
    rw [content, if_neg (by omega), Nat.mod_eq_of_lt (by omega),
      (by omega : min b.data_size (b.max_size - b.write_pos) = b.max_size - b.write_pos)]
    rw [List.take_of_length_le (by rw [List.length_drop, hlen]),
      (by omega : b.data_size - (b.max_size - b.write_pos) = b.write_pos)]

theorem get_audio_recent (b : CircularAudioBuffer α) (h : b.Inv)
    (hd : b.data_size < b.max_size) (n : Nat) (hn : n ≤ b.data_size) :
    b.get_audio (some n) = lastN b.content n := by
  obtain ⟨hlen, hwp, hds, hnf⟩ := h
  have hW := hnf hd
  have hcb : b.content = b.buffer.take b.data_size := by
    rw [content, if_pos hd]
  have hcl : (b.buffer.take b.data_size).length = b.data_size := by
    rw [List.length_take]; omega
  simp only [get_audio, Nat.min_eq_left hn]
  split_ifs with h1 h2
  · subst h1
    rw [lastN_zero]
  · rw [hcb, lastN, hcl, List.drop_take, hW,
      (by omega : b.data_size - (b.data_size - n) = n)]
  · exact absurd ⟨hn, by omega⟩ h2

theorem content_overlapRetain (b : CircularAudioBuffer α) (h : b.Inv)
    (hd : b.data_size < b.max_size) (n : Nat) :
    (overlapRetain n b).content
      = if n ≤ b.data_size then lastN b.content n else [] := by
  obtain ⟨hlen, hwp, hds, hnf⟩ := h
  simp only [overlapRetain, get_overlap]
  by_cases hn : n ≤ b.data_size
  · simp only [if_pos hn, get_audio_recent b ⟨hlen, hwp, hds, hnf⟩ hd n hn]
    have hlnl : (lastN b.content n).length = n := by
      rw [lastN_length, content_length b ⟨hlen, hwp, hds, hnf⟩]; omega
    by_cases h0 : 0 < n
    · rw [if_pos (by rw [hlnl]; omega)]
      set ov := lastN b.content n with hov
      simp only [clear, add_audio, hlnl, Nat.zero_add]
      rw [if_neg (by omega : ¬ b.max_size ≤ n), if_pos (by omega : n ≤ b.max_size)]
      simp only [content]
      have hmin : min n b.max_size = n := by omega
      rw [hmin, if_pos (by omega : n < b.max_size), writeSlice, List.take_zero,
        List.nil_append, hlnl, Nat.zero_add, List.take_left' hlnl]
    · have hn0 : n = 0 := by omega
      subst hn0
      rw [if_neg (by rw [hlnl]; omega), content_clear b ⟨hlen, hwp, hds, hnf⟩, lastN_zero]
  · simp only [if_neg hn, List.length_nil, lt_irrefl, if_false]
    exact content_clear b ⟨hlen, hwp, hds, hnf⟩

end CircularAudioBuffer

open CircularAudioBuffer

/-! ## Claim theorems: ring buffer -/

/-- Claim C5 (code bug): `get_audio`, on a full buffer whose cursor sits
mid-array with fewer samples in front of it than requested, returns the oldest
`n` buffered samples instead of the most recent `n`.  Reaching the state by
appending `[1,2,3]` then `[4,5]` to an empty capacity-4 buffer (content, oldest
first, `[2,3,4,5]`, cursor 1), reading 3 samples — also via `get_overlap` —
yields `[2,3,4]`, not the most recent three samples `[3,4,5]` that the spec
(and the overlap-continuity purpose of `get_overlap`) requires. -/
theorem C5_code_bug_eval :
    (((CircularAudioBuffer.init (0 : Nat) 4).add_audio [1, 2, 3]).add_audio
        [4, 5]).content = [2, 3, 4, 5] ∧
    lastN ((((CircularAudioBuffer.init (0 : Nat) 4).add_audio [1, 2, 3]).add_audio
        [4, 5]).content) 3 = [3, 4, 5] ∧
    (((CircularAudioBuffer.init (0 : Nat) 4).add_audio [1, 2, 3]).add_audio
        [4, 5]).get_audio (some 3) = [2, 3, 4] ∧
    (((CircularAudioBuffer.init (0 : Nat) 4).add_audio [1, 2, 3]).add_audio
        [4, 5]).get_overlap 3 = [2, 3, 4] ∧
    ([2, 3, 4] : List Nat) ≠ [3, 4, 5] := by
  decide

/-- Claim C6: for every sequence of appends to an initially empty ring buffer
whose total sample length is at most the capacity, reading the full current
count of samples returns exactly the concatenation of all appended chunks in
append order. -/
theorem C6_read_full_concat (z : α) (cap : Nat) (chunks : List (List α))
    (h : chunks.flatten.length ≤ cap) :
    (appendAll (CircularAudioBuffer.init z cap) chunks).get_audio
      (some (appendAll (CircularAudioBuffer.init z cap) chunks).data_size)
      = chunks.flatten := by
  have hInv := inv_appendAll (CircularAudioBuffer.init z cap) chunks (inv_init z cap)
  rw [get_audio_count, get_audio_none_eq_content _ hInv,
    content_appendAll _ _ (inv_init z cap), content_init, List.nil_append]
  exact lastN_of_length_le _ _ h

/-- Witness for C6 at a concrete input. -/
theorem C6_read_full_concat_witness :
    (appendAll (CircularAudioBuffer.init (0 : Nat) 4) [[1], [2, 3]]).get_audio
      (some (appendAll (CircularAudioBuffer.init (0 : Nat) 4) [[1], [2, 3]]).data_size)
      = [1, 2, 3] :=
  C6_read_full_concat (0 : Nat) 4 [[1], [2, 3]] (by decide)

/-- Claim C7: when the appended chunks exceed the capacity in total, the buffer
holds exactly the last `capacity` samples of the concatenated input, whatever
the split into append calls; and a single append of length at least the
capacity resets the cursor to 0, sets the count to the capacity, and leaves
exactly the chunk's last `capacity` samples. -/
theorem C7_wraparound_invariance (z : α) (cap : Nat) (chunks : List (List α))
    (hover : cap < chunks.flatten.length)
    (b : CircularAudioBuffer α) (c : List α) (hb : b.Inv) (hc : b.max_size ≤ c.length) :
    ((appendAll (CircularAudioBuffer.init z cap) chunks).get_audio none
        = lastN chunks.flatten cap ∧
      (appendAll (CircularAudioBuffer.init z cap) chunks).data_size = cap) ∧
    ((b.add_audio c).write_pos = 0 ∧ (b.add_audio c).data_size = b.max_size ∧
      (b.add_audio c).get_audio none = lastN c b.max_size) := by
  have hInv := inv_appendAll (CircularAudioBuffer.init z cap) chunks (inv_init z cap)
  constructor
  · constructor
    · rw [get_audio_none_eq_content _ hInv, content_appendAll _ _ (inv_init z cap),
        content_init, List.nil_append]
      rfl
    · have h1 := content_length _ hInv
      rw [content_appendAll _ _ (inv_init z cap), content_init, List.nil_append,
        lastN_length,
        (show (CircularAudioBuffer.init z cap).max_size = cap from rfl)] at h1
      omega
  · have hrec : b.add_audio c
        = CircularAudioBuffer.mk b.max_size (c.drop (c.length - b.max_size))
            0 b.max_size := by
      simp only [add_audio, if_pos hc]
    have hInvR : (CircularAudioBuffer.mk b.max_size (c.drop (c.length - b.max_size))
        0 b.max_size).Inv :=
      ⟨by simp; omega, Nat.zero_le _, le_refl _, fun hh => absurd hh (lt_irrefl _)⟩
    rw [hrec]
    refine ⟨rfl, rfl, ?_⟩
    rw [get_audio_none_eq_content _ hInvR]
    simp [content, lastN]

/-- Witness for C7 at a concrete input. -/
theorem C7_wraparound_invariance_witness :
    ((appendAll (CircularAudioBuffer.init (0 : Nat) 2) [[1, 2, 3]]).get_audio none
        = lastN [1, 2, 3] 2 ∧
      (appendAll (CircularAudioBuffer.init (0 : Nat) 2) [[1, 2, 3]]).data_size = 2) ∧
    (((CircularAudioBuffer.init (0 : Nat) 2).add_audio [7, 8, 9]).write_pos = 0 ∧
      ((CircularAudioBuffer.init (0 : Nat) 2).add_audio [7, 8, 9]).data_size
        = (CircularAudioBuffer.init (0 : Nat) 2).max_size ∧
      ((CircularAudioBuffer.init (0 : Nat) 2).add_audio [7, 8, 9]).get_audio none
        = lastN [7, 8, 9] (CircularAudioBuffer.init (0 : Nat) 2).max_size) :=
  C7_wraparound_invariance (0 : Nat) 2 [[1, 2, 3]] (by decide)
    (CircularAudioBuffer.init (0 : Nat) 2) [7, 8, 9] (by decide) (by decide)

/-- Claim C8 (counterexample): the write cursor does not always stay in
`[0, capacity)` and does not always advance by the chunk length modulo the
capacity.  Appending `[5]` then `[6]` to an empty capacity-2 buffer leaves the
cursor at 2, which equals the capacity (outside the half-open interval) and
differs from `(1 + 1) % 2 = 0`. -/
theorem C8_counterexample :
    (((CircularAudioBuffer.init (0 : Nat) 2).add_audio [5]).add_audio [6]).write_pos = 2 ∧
    ¬ (((CircularAudioBuffer.init (0 : Nat) 2).add_audio [5]).add_audio [6]).write_pos
        < (((CircularAudioBuffer.init (0 : Nat) 2).add_audio [5]).add_audio [6]).max_size ∧
    (((CircularAudioBuffer.init (0 : Nat) 2).add_audio [5]).add_audio [6]).write_pos
        ≠ (1 + 1) % 2 := by
  decide

/-- Claim C8 (amended): every operation keeps the cursor in the closed
interval `[0, capacity]` and the count at most the capacity; `clear` resets
both to 0; and an append of fewer than `capacity` samples moves the cursor to
`cursor + len` when that does not pass the end of the array and to
`cursor + len - capacity` otherwise — so the cursor is congruent to
`cursor + len` modulo the capacity, landing on `capacity` itself rather than 0
when the write fills the array exactly — while the count becomes
`min(count + len, capacity)`. -/
theorem C8_amended_cursor_bounds (b : CircularAudioBuffer α) (c : List α)
    (h1 : b.write_pos ≤ b.max_size) (h2 : b.data_size ≤ b.max_size) :
    (b.add_audio c).write_pos ≤ b.max_size ∧ (b.add_audio c).data_size ≤ b.max_size ∧
    b.clear.write_pos = 0 ∧ b.clear.data_size = 0 ∧
    (c.length < b.max_size →
      (b.add_audio c).write_pos % b.max_size = (b.write_pos + c.length) % b.max_size ∧
      (b.add_audio c).write_pos
        = (if b.write_pos + c.length ≤ b.max_size then b.write_pos + c.length
           else b.write_pos + c.length - b.max_size) ∧
      (b.add_audio c).data_size = min (b.data_size + c.length) b.max_size) := by
  simp only [add_audio]
  by_cases hk : b.max_size ≤ c.length
  · simp only [if_pos hk]
    exact ⟨Nat.zero_le _, le_refl _, rfl, rfl, fun hck => absurd hk (by omega)⟩
  · simp only [if_neg hk]
    by_cases hw : b.write_pos + c.length ≤ b.max_size
    · simp only [if_pos hw]
      exact ⟨hw, min_le_right _ _, rfl, rfl, fun hck => ⟨by trivial, by trivial, by trivial⟩⟩
    · simp only [if_neg hw]
      push_neg at hk hw
      refine ⟨?_, min_le_right _ _, rfl, rfl, fun hck => ⟨?_, ?_, by trivial⟩⟩
      · show c.length - (b.max_size - b.write_pos) ≤ b.max_size
        omega
      · show (c.length - (b.max_size - b.write_pos)) % b.max_size
            = (b.write_pos + c.length) % b.max_size
        rw [Nat.mod_eq_sub_mod (by omega : b.max_size ≤ b.write_pos + c.length)]
        congr 1
        omega
      · show c.length - (b.max_size - b.write_pos) = b.write_pos + c.length - b.max_size
        omega

/-! ## Reconciler lemmas -/

theorem drain_latest_result_foldl (results : List QueueResult) :
    ∀ acc : Option QueueResult,
      results.foldl (fun acc r => if truthy r.translation then some r else acc) acc
        = match (results.filter fun r => truthy r.translation).getLast? with
          | some r => some r
          | none => acc := by
  induction results with
  | nil => intro acc; rfl
  | cons r rs ih =>
    intro acc
    rw [List.foldl_cons, List.filter_cons]
    by_cases hr : truthy r.translation = true
    · rw [if_pos hr, if_pos hr, ih (some r)]
      cases hfl : (rs.filter fun x => truthy x.translation) with
      | nil => rfl
      | cons y ys =>
        rw [List.getLast?_cons_cons]
        obtain ⟨g, hg⟩ : ∃ g, (y :: ys).getLast? = some g :=
          ⟨(y :: ys).getLast (by simp), List.getLast?_eq_getLast_of_ne_nil (by simp)⟩
        rw [hg]
    · rw [if_neg hr, if_neg hr, ih acc]

theorem drain_latest_result_eq (results : List QueueResult) :
    drain_latest_result results
      = (results.filter fun r => truthy r.translation).getLast? := by
  rw [drain_latest_result, drain_latest_result_foldl results none]
  cases (results.filter fun r => truthy r.translation).getLast? <;> rfl

theorem drain_latest_result_mem (results : List QueueResult) (r : QueueResult)
    (h : drain_latest_result results = some r) :
    r ∈ results ∧ truthy r.translation = true := by
  rw [drain_latest_result_eq] at h
  have hmem : r ∈ results.filter fun x => truthy x.translation := by
    cases hfl : (results.filter fun x => truthy x.translation) with
    | nil => rw [hfl] at h; exact absurd h (by simp)
    | cons y ys =>
      rw [hfl] at h
      have := List.getLast?_eq_getLast_of_ne_nil (l := y :: ys) (by simp)
      rw [this] at h
      exact (Option.some_inj.mp h) ▸ List.getLast_mem _
  exact ⟨(List.mem_filter.mp hmem).1, (List.mem_filter.mp hmem).2⟩

/-! ## Claim theorems: result reconciliation -/

/-- Claim C1 (counterexample): when the queue holds completed results for
sequence IDs 3, 2, 1 in that drain order (all with non-empty translations),
one poll from a fresh display state selects and displays sequence 1's
translation — the most recently drained — not sequence 3's as the claim
states. -/
theorem C1_counterexample :
    check_results_poll 0
        [⟨3, "t3", some "x3"⟩, ⟨2, "t2", some "x2"⟩, ⟨1, "t1", some "x1"⟩]
      = (1, some ("t1", some "x1")) ∧ (1 : Nat) ≠ 3 := by
  decide

/-- Claim C1 (amended): among the drained results carrying a non-empty
translation it is the most recently drained one (the last in queue order, i.e.
the one whose translation completed last), not the one with the highest
sequence ID, that is selected; it is applied to the display state only when its
sequence ID is strictly greater than the last accepted one.  In particular,
completions drained in the order 3, 2, 1 leave sequence 1's translation on
display. -/
theorem C1_amended_last_drained_wins (last : Nat) (results : List QueueResult) :
    check_results_poll last results
      = match (results.filter fun r => truthy r.translation).getLast? with
        | some r =>
          if last < r.tid then (r.tid, some (r.transcription, r.translation))
          else (last, none)
        | none => (last, none) := by
  simp only [check_results_poll, drain_latest_result_eq]

/-- Claim C2: the display state's last-accepted sequence ID never decreases
across a poll; anything applied to the display state comes from a drained
result with a truthy translation whose sequence ID is strictly greater than
the previous last-accepted ID (so a result with a smaller-or-equal ID is
silently dropped); and a poll that displays nothing leaves the ID unchanged. -/
theorem C2_monotonic_last_accepted (last : Nat) (results : List QueueResult) :
    last ≤ (check_results_poll last results).1 ∧
    (∀ p : String × Option String, (check_results_poll last results).2 = some p →
      ∃ r, r ∈ results ∧ truthy r.translation = true ∧ last < r.tid ∧
        (check_results_poll last results).1 = r.tid ∧
        p = (r.transcription, r.translation)) ∧
    ((check_results_poll last results).2 = none →
      (check_results_poll last results).1 = last) := by
  cases hdrain : drain_latest_result results with
  | none =>
    simp only [check_results_poll, hdrain]
    exact ⟨le_refl _, fun p hp => absurd hp (by simp), fun _ => trivial⟩
  | some r =>
    have hmem := drain_latest_result_mem results r hdrain
    simp only [check_results_poll, hdrain]
    by_cases hlt : last < r.tid
    · simp only [if_pos hlt]
      refine ⟨le_of_lt hlt, ?_, fun hn => absurd hn (by simp)⟩
      intro p hp
      exact ⟨r, hmem.1, hmem.2, hlt, rfl, (Option.some_inj.mp hp).symm⟩
    · simp only [if_neg hlt]
      exact ⟨le_refl _, fun p hp => absurd hp (by simp), fun _ => trivial⟩

/-- Witness for C2 at a concrete poll that displays a result. -/
theorem C2_monotonic_last_accepted_witness :
    ∃ r, r ∈ [(⟨1, "a", some "b"⟩ : QueueResult)] ∧ truthy r.translation = true ∧
      0 < r.tid ∧ (check_results_poll 0 [⟨1, "a", some "b"⟩]).1 = r.tid ∧
      (("a", some "b") : String × Option String) = (r.transcription, r.translation) :=
  (C2_monotonic_last_accepted 0 [⟨1, "a", some "b"⟩]).2.1 ("a", some "b") (by decide)

/-! ## Claim theorems: segmenter finalize paths -/

/-- Claim C3 (counterexample): the sentence-completeness filter is not applied
on the silence-timeout finalize path and is applied on the end-of-speech path —
the opposite of the claim.  With thresholds (600 ms silence as 500, min speech
2 samples, max 5, overlap 1), the transcript `"hi there"` (two words, no
sentence-final punctuation, so the heuristic rejects it) is dispatched by the
silence-timeout path, while the end-of-speech path refuses to dispatch it. -/
theorem C3_counterexample :
    (processIdle ⟨500, 2, 5, 1⟩
        ⟨appendAll (CircularAudioBuffer.init (0 : Nat) 8) [[1, 1, 1]], 1000, false, ""⟩
        (some "hi there")).2 = some "hi there" ∧
    (processChunk ⟨500, 2, 5, 1⟩
        ⟨appendAll (CircularAudioBuffer.init (0 : Nat) 8) [[1, 1]], 0, true, ""⟩
        false [1] 1000 (some "hi there")).2 = none ∧
    is_complete_sentence "hi there" = false := by
  decide

/-- Claim C3 (amended): the "looks like a complete sentence" heuristic is
applied as a rejection filter only on the end-of-speech finalize path; the
silence-timeout and max-duration finalize paths dispatch any non-empty,
non-duplicate transcript without the sentence-completeness filter. -/
theorem C3_amended_filter_on_end_of_speech (P : SegParams) (st : SegState α)
    (s : String) (chunk : List α) (dur : Int) :
    (st.is_speaking = false → P.minSpeechSize < st.buffer.data_size →
      P.minSilence < st.silence_counter →
      (processIdle P st (some s)).2
        = if s ≠ "" ∧ s ≠ st.last_transcription then some s else none) ∧
    (P.maxSpeechSize ≤ (st.buffer.add_audio chunk).data_size →
      (processChunk P st true chunk dur (some s)).2
        = if s ≠ "" ∧ s ≠ st.last_transcription then some s else none) ∧
    (st.is_speaking = true → P.minSilence ≤ st.silence_counter + dur →
      P.minSpeechSize ≤ (st.buffer.add_audio chunk).data_size →
      (processChunk P st false chunk dur (some s)).2
        = if s ≠ "" ∧ is_complete_sentence s = true ∧ s ≠ st.last_transcription
          then some s else none) := by
  refine ⟨?_, ?_, ?_⟩
  · intro h1 h2 h3
    simp only [processIdle, if_pos (show _ ∧ _ ∧ _ from ⟨h1, h2, h3⟩)]
    by_cases ha : s ≠ "" ∧ s ≠ st.last_transcription
    · simp only [if_pos ha]
    · simp only [if_neg ha]
      split_ifs <;> rfl
  · intro h
    simp only [processChunk, if_true]
    rw [if_pos h]
    by_cases ha : s ≠ "" ∧ s ≠ st.last_transcription
    · simp only [if_pos ha]
    · simp only [if_neg ha]
  · intro h1 h2 h3
    simp only [processChunk, Bool.false_eq_true, if_false, h1, if_true]
    rw [if_pos (show _ ∧ _ from ⟨h2, h3⟩)]
    by_cases ha : s ≠ "" ∧ is_complete_sentence s = true ∧ s ≠ st.last_transcription
    · simp only [if_pos ha]
    · simp only [if_neg ha]

/-- Witness for the amended C3 at concrete inputs: the silence-timeout path
dispatches a two-word transcript and the end-of-speech path applies the
heuristic to it. -/
theorem C3_amended_filter_on_end_of_speech_witness :
    (processIdle ⟨500, 2, 5, 1⟩
        ⟨appendAll (CircularAudioBuffer.init (0 : Nat) 8) [[1, 1, 1]], 1000, false, ""⟩
        (some "hi there")).2
      = (if "hi there" ≠ "" ∧ "hi there" ≠ "" then some "hi there" else none) ∧
    (processChunk ⟨500, 2, 5, 1⟩
        ⟨appendAll (CircularAudioBuffer.init (0 : Nat) 8) [[1, 1]], 0, true, ""⟩
        false [1] 1000 (some "hi there")).2
      = (if "hi there" ≠ "" ∧ is_complete_sentence "hi there" = true ∧ "hi there" ≠ ""
         then some "hi there" else none) :=
  ⟨(C3_amended_filter_on_end_of_speech ⟨500, 2, 5, 1⟩
      ⟨appendAll (CircularAudioBuffer.init (0 : Nat) 8) [[1, 1, 1]], 1000, false, ""⟩
      "hi there" [1] 1000).1 (by decide) (by decide) (by decide),
   (C3_amended_filter_on_end_of_speech ⟨500, 2, 5, 1⟩
      ⟨appendAll (CircularAudioBuffer.init (0 : Nat) 8) [[1, 1]], 0, true, ""⟩
      "hi there" [1] 1000).2.2 (by decide) (by decide) (by decide)⟩

/-- Claim C4 (counterexample): a finalize on the max-duration path does not
return the segmenter to the non-speaking state: with max speech size 3, a
speech chunk `[1,2,3]` triggers the forced finalize and the accepted transcript
`"abc"` is dispatched, yet `is_speaking` remains `true` afterwards, where the
claim requires the segmenter to be back in the non-speaking state after every
finalize. -/
theorem C4_counterexample :
    (processChunk ⟨500, 2, 3, 1⟩ ⟨CircularAudioBuffer.init (0 : Nat) 8, 0, false, ""⟩
        true [1, 2, 3] 1000 (some "abc")).2 = some "abc" ∧
    (processChunk ⟨500, 2, 3, 1⟩ ⟨CircularAudioBuffer.init (0 : Nat) 8, 0, false, ""⟩
        true [1, 2, 3] 1000 (some "abc")).1.is_speaking = true := by
  decide

/-- Claim C4 (amended): the per-path effect of a finalize.  On the
max-duration path (accepted or rejected transcript) and on the end-of-speech
accepted path, the buffer afterwards holds exactly the trailing overlap of the
pre-finalize audio (or nothing when less than the overlap is buffered, given
the buffer has not wrapped); the end-of-speech path additionally resets the
speaking flag and silence timer, while the max-duration path leaves the
speaking flag set (its silence counter is 0 from the speech branch).  An
end-of-speech finalize that dispatches nothing changes no state beyond the
appended chunk and accumulated silence.  On the silence-timeout path the
overlap retention and the reset happen on accept, but the buffer is cut to the
overlap only when it exceeds the max speech size, is kept whole otherwise, and
on reject it is emptied entirely when oversized and left untouched (flags
included) otherwise. -/
theorem C4_amended_finalize_effects (P : SegParams) (st : SegState α) (chunk : List α)
    (dur : Int) (t : Option String) (s : String) (hInv : st.buffer.Inv) :
    (P.maxSpeechSize ≤ (st.buffer.add_audio chunk).data_size →
      (st.buffer.add_audio chunk).data_size < st.buffer.max_size →
      ((processChunk P st true chunk dur t).1.buffer.content
          = (if P.overlapSize ≤ (st.buffer.add_audio chunk).data_size
             then lastN (st.buffer.add_audio chunk).content P.overlapSize else []) ∧
        (processChunk P st true chunk dur t).1.is_speaking = true ∧
        (processChunk P st true chunk dur t).1.silence_counter = 0)) ∧
    (st.is_speaking = true → P.minSilence ≤ st.silence_counter + dur →
      P.minSpeechSize ≤ (st.buffer.add_audio chunk).data_size →
      (st.buffer.add_audio chunk).data_size < st.buffer.max_size →
      t = some s → s ≠ "" → is_complete_sentence s = true →
      s ≠ st.last_transcription →
      ((processChunk P st false chunk dur t).1.buffer.content
          = (if P.overlapSize ≤ (st.buffer.add_audio chunk).data_size
             then lastN (st.buffer.add_audio chunk).content P.overlapSize else []) ∧
        (processChunk P st false chunk dur t).1.is_speaking = false ∧
        (processChunk P st false chunk dur t).1.silence_counter = 0)) ∧
    (st.is_speaking = true → P.minSilence ≤ st.silence_counter + dur →
      P.minSpeechSize ≤ (st.buffer.add_audio chunk).data_size →
      (processChunk P st false chunk dur t).2 = none →
      ((processChunk P st false chunk dur t).1.buffer = st.buffer.add_audio chunk ∧
        (processChunk P st false chunk dur t).1.is_speaking = true ∧
        (processChunk P st false chunk dur t).1.silence_counter
          = st.silence_counter + dur)) ∧
    (st.is_speaking = false → P.minSpeechSize < st.buffer.data_size →
      P.minSilence < st.silence_counter → t = some s → s ≠ "" →
      s ≠ st.last_transcription → st.buffer.data_size ≤ P.maxSpeechSize →
      ((processIdle P st t).1.buffer = st.buffer ∧
        (processIdle P st t).1.is_speaking = false ∧
        (processIdle P st t).1.silence_counter = 0)) ∧
    (st.is_speaking = false → P.minSpeechSize < st.buffer.data_size →
      P.minSilence < st.silence_counter → t = some s → s ≠ "" →
      s ≠ st.last_transcription → P.maxSpeechSize < st.buffer.data_size →
      st.buffer.data_size < st.buffer.max_size →
      ((processIdle P st t).1.buffer.content
          = (if P.overlapSize ≤ st.buffer.data_size
             then lastN st.buffer.content P.overlapSize else []) ∧
        (processIdle P st t).1.is_speaking = false ∧
        (processIdle P st t).1.silence_counter = 0)) ∧
    (st.is_speaking = false → P.minSpeechSize < st.buffer.data_size →
      P.minSilence < st.silence_counter → (processIdle P st t).2 = none →
      P.maxSpeechSize < st.buffer.data_size →
      ((processIdle P st t).1.buffer.data_size = 0 ∧
        (processIdle P st t).1.is_speaking = false ∧
        (processIdle P st t).1.silence_counter = 0)) ∧
    (st.is_speaking = false → P.minSpeechSize < st.buffer.data_size →
      P.minSilence < st.silence_counter → (processIdle P st t).2 = none →
      st.buffer.data_size ≤ P.maxSpeechSize →
      (processIdle P st t).1 = st) := by
  have hcontent : ∀ h2 : (st.buffer.add_audio chunk).data_size < st.buffer.max_size,
      (overlapRetain P.overlapSize (st.buffer.add_audio chunk)).content
        = (if P.overlapSize ≤ (st.buffer.add_audio chunk).data_size
           then lastN (st.buffer.add_audio chunk).content P.overlapSize else []) :=
    fun h2 => content_overlapRetain _ (inv_add_audio _ _ hInv)
      (by rw [max_size_add_audio]; exact h2) _
  refine ⟨?_, ?_, ?_, ?_, ?_, ?_, ?_⟩
  · intro h1 h2
    simp only [processChunk, if_true]
    rw [if_pos h1]
    cases t with
    | none => exact ⟨hcontent h2, by trivial, by trivial⟩
    | some s' =>
      by_cases ha : s' ≠ "" ∧ s' ≠ st.last_transcription
      · simp only [if_pos ha]
        exact ⟨hcontent h2, by trivial, by trivial⟩
      · simp only [if_neg ha]
        exact ⟨hcontent h2, by trivial, by trivial⟩
  · intro hsp h2 h3 h4 ht hs1 hs2 hs3
    subst ht
    simp only [processChunk, Bool.false_eq_true, if_false, hsp, if_true]
    rw [if_pos (show _ ∧ _ from ⟨h2, h3⟩), if_pos (show _ ∧ _ ∧ _ from ⟨hs1, hs2, hs3⟩)]
    exact ⟨hcontent h4, by trivial, by trivial⟩
  · intro hsp h2 h3
    simp only [processChunk, Bool.false_eq_true, if_false, hsp, if_true]
    rw [if_pos (show _ ∧ _ from ⟨h2, h3⟩)]
    cases t with
    | none => exact fun _ => ⟨by trivial, by trivial, by trivial⟩
    | some s' =>
      by_cases ha : s' ≠ "" ∧ is_complete_sentence s' = true ∧ s' ≠ st.last_transcription
      · simp only [if_pos ha]
        intro hnone
        exact absurd hnone (by simp)
      · simp only [if_neg ha]
        exact fun _ => ⟨by trivial, by trivial, by trivial⟩
  · intro h1 h2 h3 ht hs1 hs2 hle
    subst ht
    simp only [processIdle]
    rw [if_pos (show _ ∧ _ ∧ _ from ⟨h1, h2, h3⟩), if_pos (show _ ∧ _ from ⟨hs1, hs2⟩),
      if_neg (not_lt.mpr hle)]
    exact ⟨by trivial, by trivial, by trivial⟩
  · intro h1 h2 h3 ht hs1 hs2 hgt hfull
    subst ht
    simp only [processIdle]
    rw [if_pos (show _ ∧ _ ∧ _ from ⟨h1, h2, h3⟩), if_pos (show _ ∧ _ from ⟨hs1, hs2⟩),
      if_pos hgt]
    exact ⟨content_overlapRetain _ hInv hfull _, rfl, rfl⟩
  · intro h1 h2 h3
    simp only [processIdle]
    rw [if_pos (show _ ∧ _ ∧ _ from ⟨h1, h2, h3⟩)]
    cases t with
    | none =>
      intro _ hgt
      simp only [if_pos hgt]
      exact ⟨by trivial, by trivial, by trivial⟩
    | some s' =>
      by_cases ha : s' ≠ "" ∧ s' ≠ st.last_transcription
      · simp only [if_pos ha]
        intro hnone
        exact absurd hnone (by simp)
      · simp only [if_neg ha]
        intro _ hgt
        simp only [if_pos hgt]
        exact ⟨by trivial, by trivial, by trivial⟩
  · intro h1 h2 h3
    simp only [processIdle]
    rw [if_pos (show _ ∧ _ ∧ _ from ⟨h1, h2, h3⟩)]
    cases t with
    | none =>
      intro _ hle
      simp only [if_neg (not_lt.mpr hle)]
    | some s' =>
      by_cases ha : s' ≠ "" ∧ s' ≠ st.last_transcription
      · simp only [if_pos ha]
        intro hnone
        exact absurd hnone (by simp)
      · simp only [if_neg ha]
        intro _ hle
        simp only [if_neg (not_lt.mpr hle)]

/-- Witness for the amended C4: the max-duration conjunct applied at a
concrete run, showing the overlap-trimmed buffer with the speaking flag left
set. -/
theorem C4_amended_finalize_effects_witness :
    (processChunk ⟨500, 2, 3, 1⟩ ⟨CircularAudioBuffer.init (0 : Nat) 8, 0, false, ""⟩
        true [2, 3, 4] 1000 (some "xyz")).1.buffer.content
      = (if (1 : Nat) ≤ ((CircularAudioBuffer.init (0 : Nat) 8).add_audio
            [2, 3, 4]).data_size
         then lastN ((CircularAudioBuffer.init (0 : Nat) 8).add_audio [2, 3, 4]).content 1
         else []) ∧
    (processChunk ⟨500, 2, 3, 1⟩ ⟨CircularAudioBuffer.init (0 : Nat) 8, 0, false, ""⟩
        true [2, 3, 4] 1000 (some "xyz")).1.is_speaking = true :=
  ⟨((C4_amended_finalize_effects ⟨500, 2, 3, 1⟩
      ⟨CircularAudioBuffer.init (0 : Nat) 8, 0, false, ""⟩ [2, 3, 4] 1000 (some "xyz")
      "xyz" (by decide)).1 (by decide) (by decide)).1,
   ((C4_amended_finalize_effects ⟨500, 2, 3, 1⟩
      ⟨CircularAudioBuffer.init (0 : Nat) 8, 0, false, ""⟩ [2, 3, 4] 1000 (some "xyz")
      "xyz" (by decide)).1 (by decide) (by decide)).2.1⟩

/-- Witness for the amended C8 at a concrete input. -/
theorem C8_amended_cursor_bounds_witness :
    ((CircularAudioBuffer.init (0 : Nat) 3).add_audio [1, 2]).write_pos
        % (CircularAudioBuffer.init (0 : Nat) 3).max_size
      = ((CircularAudioBuffer.init (0 : Nat) 3).write_pos + ([1, 2] : List Nat).length)
        % (CircularAudioBuffer.init (0 : Nat) 3).max_size :=
  ((C8_amended_cursor_bounds (CircularAudioBuffer.init (0 : Nat) 3) [1, 2]
    (by decide) (by decide)).2.2.2.2 (by decide)).1

/-! ## Completion-handler lemmas -/

theorem processCompletions_foldl {σ : Type} (cs : List (Completion σ)) :
    ∀ acc : List (TTSJob σ) × List QueueResult,
      (cs.foldl
        (fun acc c =>
          let r := on_complete c.tid c.transcription c.voice c.settings c.device c.outcome
          (acc.1 ++ r.1, acc.2 ++ [r.2])) acc).2
        = acc.2 ++ cs.map (fun c =>
            (on_complete c.tid c.transcription c.voice c.settings c.device c.outcome).2) := by
  induction cs with
  | nil => intro acc; simp
  | cons c cs ih =>
    intro acc
    rw [List.foldl_cons, ih, List.map_cons]
    simp

/-! ## Claim theorems: translation completion handling -/

/-- Claim C9: a failed translation (worker exception or a `None` return)
records `translation = None`, still pushes `(sequenceID, transcript, None)` to
the reconciler's queue, and enqueues no TTS job; every pushed result carries
the worker's outcome verbatim; any TTS job that is enqueued comes from a
successful non-empty translation whose voice is non-empty and, lowercased, is
not `"none"`; and running a list of completions pushes exactly one result per
completion in order, so a failure never blocks later sequence IDs. -/
theorem C9_failure_semantics {σ : Type} (tid : Nat) (transcription voice : String)
    (settings : σ) (device : Option Nat) (outcome : Except String (Option String))
    (cs : List (Completion σ)) :
    (∀ e, outcome = Except.error e →
      on_complete tid transcription voice settings device outcome
        = ([], ⟨tid, transcription, none⟩)) ∧
    (outcome = Except.ok none →
      on_complete tid transcription voice settings device outcome
        = ([], ⟨tid, transcription, none⟩)) ∧
    ((on_complete tid transcription voice settings device outcome).2
        = ⟨tid, transcription,
            match outcome with
            | Except.error _ => none
            | Except.ok v => v⟩) ∧
    (∀ job, job ∈ (on_complete tid transcription voice settings device outcome).1 →
      ∃ s, outcome = Except.ok (some s) ∧ s ≠ "" ∧ voice ≠ "" ∧
        pyLower voice ≠ "none" ∧ job = ⟨s, voice, settings, device⟩) ∧
    ((processCompletions cs).2
        = cs.map fun c =>
            (on_complete c.tid c.transcription c.voice c.settings c.device c.outcome).2) := by
    refine ⟨?_, ?_, ?_, ?_, ?_⟩
    · intro e he
      subst he
      rfl
    · intro he
      subst he
      rfl
    · cases outcome <;> rfl
    · intro job hjob
      cases outcome with
      | error e => exact absurd hjob (by simp [on_complete])
      | ok v =>
        cases v with
        | none => exact absurd hjob (by simp [on_complete])
        | some s =>
          simp only [on_complete] at hjob
          split_ifs at hjob with hc
          · simp only [List.mem_singleton] at hjob
            exact ⟨s, rfl, hc.1, hc.2.1, hc.2.2, hjob⟩
          · exact absurd hjob (by simp)
    · rw [processCompletions, processCompletions_foldl cs ([], []), List.nil_append]

/-- Witness for C9: a worker exception at a concrete completion pushes the
`None` result and enqueues nothing. -/
theorem C9_failure_semantics_witness :
    on_complete 1 "hello" "en-voice" () none (Except.error "boom")
      = ([], ⟨1, "hello", none⟩) :=
  (C9_failure_semantics 1 "hello" "en-voice" () none (Except.error "boom") []).1
    "boom" rfl

/-! ## Claim theorems: translate result semantics -/

/-- Claim C10: `translate` never returns the empty string — every outcome
yields either `None` (on a timeout, connection, request, or other caught
error, or when the extracted response text processes to empty) or a non-empty
string equal to the first line of the stripped response text with one pair of
surrounding double quotes removed when present. -/
theorem C10_translate_never_empty (o : TranslateOutcome) (raw : String) :
    translate o ≠ some "" ∧
    (∀ s, translate o = some s →
      ∃ w, o = TranslateOutcome.response w ∧ s = extractTranslation w ∧ s ≠ "") ∧
    (o = TranslateOutcome.timeout ∨ o = TranslateOutcome.connectionError ∨
        o = TranslateOutcome.requestError ∨ o = TranslateOutcome.otherError →
      translate o = none) ∧
    (extractTranslation raw = "" → translate (TranslateOutcome.response raw) = none) ∧
    (extractTranslation raw ≠ "" →
      translate (TranslateOutcome.response raw) = some (extractTranslation raw)) := by
  refine ⟨?_, ?_, ?_, ?_, ?_⟩
  · cases o with
    | response w =>
      simp only [translate]
      split_ifs with h
      · simp
      · simp [h]
    | timeout => simp [translate]
    | connectionError => simp [translate]
    | requestError => simp [translate]
    | otherError => simp [translate]
  · intro s hs
    cases o with
    | response w =>
      simp only [translate] at hs
      split_ifs at hs with h
      have hsw : extractTranslation w = s := Option.some_inj.mp hs
      subst hsw
      exact ⟨w, rfl, rfl, h⟩
    | timeout => exact absurd hs (by simp [translate])
    | connectionError => exact absurd hs (by simp [translate])
    | requestError => exact absurd hs (by simp [translate])
    | otherError => exact absurd hs (by simp [translate])
  · intro h
    rcases h with h | h | h | h <;> subst h <;> rfl
  · intro h
    simp [translate, h]
  · intro h
    simp [translate, h]

/-- Witness for C10: a concrete quoted single-line response is returned
unquoted and non-empty. -/
theorem C10_translate_never_empty_witness :
    translate (TranslateOutcome.response "  \"Hola\"  ")
      = some (extractTranslation "  \"Hola\"  ") :=
  (C10_translate_never_empty (TranslateOutcome.response "  \"Hola\"  ")
    "  \"Hola\"  ").2.2.2.2 (by decide)

end GoGospelNow
